import Mathlib

/-!
Shallow embedding of the melsecai ladder-logic synthesis core
(`src/melsec_ladder_mcp`): device addressing and allocation, ladder IR,
the IL compiler, the IL validator and the pattern-matching layer, together
with theorems checking the specification's claims against this code.

Python strings are modelled as Lean `String`; helper functions below mirror
the string operations used by the source (`str.upper`, `str.lower`,
`in`-substring tests, `str.split()` and numeric rendering/parsing).
-/

namespace Melsec

/-- Whether `pat` is an initial segment of `cs`. -/
def startsWithList (pat cs : List Char) : Bool :=
  match pat, cs with
  | [], _ => true
  | _ :: _, [] => false
  | a :: as, b :: bs => a = b && startsWithList as bs

/-- Whether `pat` occurs contiguously inside `cs`. -/
def hasSubList (pat cs : List Char) : Bool :=
  match cs with
  | [] => startsWithList pat []
  | _ :: rest => startsWithList pat cs || hasSubList pat rest

/-- Substring test: Python `sub in s`. -/
def pyIn (sub s : String) : Bool := hasSubList sub.data s.data

/-- Python `str.upper()` (the source only upper-cases ASCII-or-Korean text;
Korean syllables have no case, so ASCII case-mapping is exact here). -/
def pyUpper (s : String) : String := String.mk (s.data.map Char.toUpper)

/-- Python `str.lower()` (same remark as `pyUpper`). -/
def pyLower (s : String) : String := String.mk (s.data.map Char.toLower)

def isWs (c : Char) : Bool := c = ' ' || c = '\t' || c = '\n' || c = '\r'

/-- Helper for `pySplit`: accumulate the current token while walking the text. -/
def splitWsAux : List Char → List Char → List String
  | [], [] => []
  | [], cur => [String.mk cur.reverse]
  | c :: rest, cur =>
    if isWs c then
      match cur with
      | [] => splitWsAux rest []
      | _ => String.mk cur.reverse :: splitWsAux rest []
    else
      splitWsAux rest (c :: cur)

/-- Python `str.split()` with no arguments: split on whitespace runs,
dropping empty tokens. -/
def pySplit (s : String) : List String := splitWsAux s.data []

/-- First whitespace-delimited token of a label (`label.split()[0]`); the
source never applies this to an all-whitespace label. -/
def firstToken (s : String) : String := (pySplit s).headD ""

/-- Digit character for a value below 10 (`0` ↦ `'0'`, …, `9` ↦ `'9'`). -/
def digitChar (d : Nat) : Char := Char.ofNat (48 + d)

/-- Little-endian base-`b` digits of `n`, fuel-driven (the fuel `n + 1`
always suffices for `b ≥ 2`). -/
def natDigitsRevAux (b : Nat) : Nat → Nat → List Nat
  | 0, _ => []
  | _ + 1, 0 => []
  | fuel + 1, n + 1 => (n + 1) % b :: natDigitsRevAux b fuel ((n + 1) / b)

/-- Render `n` in base `b` most-significant digit first, as Python's
`oct(n)[2:]` (base 8) or `str(n)` (base 10) does; `0` renders as `"0"`. -/
def natToDigitStr (b n : Nat) : List Char :=
  if n = 0 then ['0'] else ((natDigitsRevAux b (n + 1) n).reverse).map digitChar

/-- Numeric value of a digit character in base `b ≤ 10`, if valid. -/
def digitVal (b : Nat) (c : Char) : Option Nat :=
  if 48 ≤ c.toNat ∧ c.toNat < 48 + b then some (c.toNat - 48) else none

/-- Accumulating loop of `int(s, b)` over the digit characters. -/
def parseNatAux (b : Nat) (acc : Nat) : List Char → Option Nat
  | [] => some acc
  | c :: rest =>
    match digitVal b c with
    | some d => parseNatAux b (acc * b + d) rest
    | none => none

/-- Python `int(s, b)` restricted to plain digit strings (the only shape the
source ever feeds it from rendered addresses): fails on an empty string or
on any non-digit character. -/
def parseNatBase (b : Nat) (cs : List Char) : Option Nat :=
  match cs with
  | [] => none
  | _ => parseNatAux b 0 cs

/-! ## Device model (`models/devices.py`) -/

inductive DeviceType where
  | X | Y | M | T | C | D
deriving DecidableEq, Repr

/-- Devices that use octal addressing (`OCTAL_DEVICES = {X, Y}`). -/
def isOctalDevice : DeviceType → Bool
  | .X => true
  | .Y => true
  | _ => false

/-- Leading letter of a rendered device string. -/
def DeviceType.letter : DeviceType → Char
  | .X => 'X'
  | .Y => 'Y'
  | .M => 'M'
  | .T => 'T'
  | .C => 'C'
  | .D => 'D'

/-- Inverse of `DeviceType.letter` (`DeviceType(device_char)` in the source). -/
def deviceTypeOfChar (c : Char) : Option DeviceType :=
  if c = 'X' then some .X
  else if c = 'Y' then some .Y
  else if c = 'M' then some .M
  else if c = 'T' then some .T
  else if c = 'C' then some .C
  else if c = 'D' then some .D
  else none

structure DeviceAddress where
  deviceType : DeviceType
  address : Nat
deriving DecidableEq, Repr

/-- `DeviceAddress.to_string`: octal digits for X/Y, decimal for the rest,
prefixed by the type letter. -/
def DeviceAddress.toStr (a : DeviceAddress) : String :=
  String.mk (a.deviceType.letter ::
    natToDigitStr (if isOctalDevice a.deviceType then 8 else 10) a.address)

/-- `DeviceAddress.from_string`: reject strings shorter than two characters,
read the (upper-cased) type letter, then parse the rest in octal (X/Y) or
decimal; `none` models the raised `ValueError`. -/
def DeviceAddress.fromStr (s : String) : Option DeviceAddress :=
  match s.data with
  | [] => none
  | [_] => none
  | c :: rest =>
    match deviceTypeOfChar c.toUpper with
    | none => none
    | some t =>
      match parseNatBase (if isOctalDevice t then 8 else 10) rest with
      | none => none
      | some n => some ⟨t, n⟩

/-- `TimerConfig` (`k_value` in 100 ms units); `seconds` is idealised as a
rational number standing for the Python float. -/
structure TimerConfig where
  kValue : Int
  seconds : Rat
  comment : String
deriving DecidableEq, Repr

/-- Python `int()` applied to a number: truncation toward zero. -/
def pyTrunc (q : Rat) : Int := if q < 0 then ⌈q⌉ else ⌊q⌋

/-- `TimerConfig.from_seconds`: `k_value = int(seconds * 10)` (truncation
toward zero), raised to 1 when not positive. -/
def TimerConfig.fromSeconds (seconds : Rat) (comment : String) : TimerConfig :=
  let k : Int := pyTrunc (seconds * 10)
  let k := if k ≤ 0 then 1 else k
  ⟨k, seconds, comment⟩

structure DeviceAllocation where
  logicalName : String
  address : DeviceAddress
  comment : String
  timerConfig : Option TimerConfig
deriving DecidableEq, Repr

/-! ## Device allocator (`core/devices.py`) -/

/-- `DEVICE_LIMITS`: maximum internal addresses per device type. -/
def DEVICE_LIMITS : DeviceType → Nat
  | .X => 32
  | .Y => 32
  | _ => 100

/-- Errors raised by the allocator (`DeviceRangeError` / `DeviceConflictError`). -/
inductive AllocErr where
  | range (msg : String)
  | conflict (msg : String)
deriving DecidableEq, Repr

/-- Mutable state of a `DeviceAllocator`: the per-type cursor
(`_next_address`), the per-type taken set (`_allocated`, a set modelled by a
list used only through membership) and the allocation list. -/
structure AllocatorSt where
  nextAddress : DeviceType → Nat
  allocated : DeviceType → List Nat
  allocations : List DeviceAllocation

/-- Fresh allocator (`DeviceAllocator.__init__`). -/
def AllocatorSt.init : AllocatorSt := ⟨fun _ => 0, fun _ => [], []⟩

/-- The `while address in self._allocated[t]` loop of `allocate`, advancing
past taken addresses and raising a range error when the advance reaches the
limit. The fuel `limit + 1 - addr` bounds the iteration count exactly: each
loop step moves `addr` up by one and errors at `limit`, and in the fuel-zero
case (`addr > limit`) the source would exit the loop at the first address
not in the taken set and then fail the `address >= limit` range check, so a
range error is produced either way whenever the taken set only holds
addresses below the limit (which every reachable allocator state does). -/
def findFreeGo (taken : List Nat) (limit : Nat) : Nat → Nat → Except AllocErr Nat
  | 0, _ => .error (.range "No more addresses available")
  | fuel + 1, addr =>
    if addr ∈ taken then
      if limit ≤ addr + 1 then .error (.range "No more addresses available")
      else findFreeGo taken limit fuel (addr + 1)
    else .ok addr

def findFreeFrom (taken : List Nat) (limit addr : Nat) : Except AllocErr Nat :=
  findFreeGo taken limit (limit + 1 - addr) addr

/-- `DeviceAllocator.allocate`: return the existing allocation when the
logical name was seen before; otherwise start from the preferred address or
the type's cursor, advance past taken addresses, re-check the limit, run the
(unreachable) conflict check, and record the new allocation. -/
def allocate (s : AllocatorSt) (logicalName : String) (deviceType : DeviceType)
    (comment : String) (timerConfig : Option TimerConfig)
    (preferredAddress : Option Nat) :
    Except AllocErr (DeviceAllocation × AllocatorSt) :=
  match s.allocations.find? (fun a => a.logicalName == logicalName) with
  | some a => .ok (a, s)
  | none =>
    match findFreeFrom (s.allocated deviceType) (DEVICE_LIMITS deviceType)
        (match preferredAddress with
         | some p => p
         | none => s.nextAddress deviceType) with
    | .error e => .error e
    | .ok address =>
      if DEVICE_LIMITS deviceType ≤ address then
        .error (.range "Address exceeds limit")
      else if address ∈ s.allocated deviceType then
        .error (.conflict "Address is already allocated")
      else
        .ok (⟨logicalName, ⟨deviceType, address⟩, comment, timerConfig⟩,
          { nextAddress := fun t =>
              if t = deviceType then address + 1 else s.nextAddress t,
            allocated := fun t =>
              if t = deviceType then address :: s.allocated t else s.allocated t,
            allocations := s.allocations ++
              [⟨logicalName, ⟨deviceType, address⟩, comment, timerConfig⟩] })

/-- `allocate_input` wrapper (type X). -/
def allocateInput (s : AllocatorSt) (name comment : String) :
    Except AllocErr (DeviceAllocation × AllocatorSt) :=
  allocate s name .X comment none none

/-- `allocate_output` wrapper (type Y). -/
def allocateOutput (s : AllocatorSt) (name comment : String) :
    Except AllocErr (DeviceAllocation × AllocatorSt) :=
  allocate s name .Y comment none none

/-- `allocate_relay` wrapper (type M). -/
def allocateRelay (s : AllocatorSt) (name comment : String) :
    Except AllocErr (DeviceAllocation × AllocatorSt) :=
  allocate s name .M comment none none

/-- `allocate_timer` wrapper (type T, with a derived `TimerConfig`). -/
def allocateTimer (s : AllocatorSt) (name : String) (seconds : Rat)
    (comment : String) : Except AllocErr (DeviceAllocation × AllocatorSt) :=
  allocate s name .T comment (some (TimerConfig.fromSeconds seconds comment)) none

/-- `get_allocation`: lookup by logical name. -/
def getAllocation (s : AllocatorSt) (logicalName : String) :
    Option DeviceAllocation :=
  s.allocations.find? (fun a => a.logicalName == logicalName)

/-! ## IL instructions (`models/instructions.py`) -/

inductive InstructionType where
  | LD | LDI | AND | ANI | OR | ORI | OUT | SET | RST
  | ORB | ANB | MPS | MRD | MPP | END
deriving DecidableEq, Repr

/-- A single IL instruction (opcode, optional device string, optional K
literal). -/
structure Instruction where
  instruction : InstructionType
  device : Option String := none
  kValue : Option Int := none
deriving DecidableEq, Repr

/-! ## IL validator (`core/instructions.py`) -/

/-- `DEVICE_INSTRUCTIONS`: opcodes that require a device operand. -/
def isDeviceInstruction : InstructionType → Bool
  | .LD | .LDI | .AND | .ANI | .OR | .ORI | .OUT | .SET | .RST => true
  | _ => false

/-- `NO_OPERAND_INSTRUCTIONS`: opcodes that must not carry a device. -/
def isNoOperandInstruction : InstructionType → Bool
  | .ORB | .ANB | .MPS | .MRD | .MPP | .END => true
  | _ => false

/-- `_check_end`: empty sequence, non-final END position, missing final END. -/
def checkEnd (instrs : List Instruction) : List String :=
  match instrs with
  | [] => ["Empty instruction sequence"]
  | _ =>
    (if (instrs.getLast?.map (fun i => i.instruction)) ≠ some InstructionType.END
       then ["Program must end with END instruction"] else []) ++
    (instrs.dropLast.enum.filterMap (fun p =>
      if p.2.instruction = InstructionType.END
        then some ("END instruction found at position " ++ toString p.1 ++
                   " (not at end)")
        else none))

/-- Imbalance diagnostic carrying the residual depth. -/
def imbalanceMsg (depth : Int) : String :=
  "MPS/MPP stack imbalance: " ++ toString depth ++ " unmatched MPS"

/-- Diagnostic for an MPP with no matching MPS at position `i`. -/
def mppMsg (i : Nat) : String :=
  "MPP at position " ++ toString i ++ " without matching MPS"

/-- Loop of `_check_stack_balance`: MPS increments and MPP decrements the
depth; a dip below zero is reported and the depth clamps back to 0; a
non-zero depth at the end is reported with the residual. -/
def checkStackAux : List Instruction → Nat → Int → List String
  | [], _, depth => if depth ≠ 0 then [imbalanceMsg depth] else []
  | inst :: rest, i, depth =>
    if inst.instruction = InstructionType.MPS then
      checkStackAux rest (i + 1) (depth + 1)
    else if inst.instruction = InstructionType.MPP then
      if depth - 1 < 0 then mppMsg i :: checkStackAux rest (i + 1) 0
      else checkStackAux rest (i + 1) (depth - 1)
    else
      checkStackAux rest (i + 1) depth

def checkStackBalance (instrs : List Instruction) : List String :=
  checkStackAux instrs 0 0

/-- Opcode mnemonic, as `inst.instruction.value` in the source's messages. -/
def instrName : InstructionType → String
  | .LD => "LD"
  | .LDI => "LDI"
  | .AND => "AND"
  | .ANI => "ANI"
  | .OR => "OR"
  | .ORI => "ORI"
  | .OUT => "OUT"
  | .SET => "SET"
  | .RST => "RST"
  | .ORB => "ORB"
  | .ANB => "ANB"
  | .MPS => "MPS"
  | .MRD => "MRD"
  | .MPP => "MPP"
  | .END => "END"

/-- `_check_device_operands` body for one instruction at position `i`. (The
application-opcode branch of the source refers to opcodes absent from the
`InstructionType` enumeration of `models/instructions.py`, so it can never
fire and is omitted.) -/
def checkOperand (i : Nat) (inst : Instruction) : List String :=
  if isDeviceInstruction inst.instruction then
    match inst.device with
    | none => [instrName inst.instruction ++ " at position " ++ toString i ++
               " requires a device"]
    | some d =>
      match DeviceAddress.fromStr d with
      | none => ["Invalid device at position " ++ toString i]
      | some addr =>
        if (addr.deviceType = DeviceType.T ∨ addr.deviceType = DeviceType.C) ∧
           inst.instruction = InstructionType.OUT ∧ inst.kValue = none then
          ["OUT " ++ d ++ " at position " ++ toString i ++ " requires K value"]
        else []
  else if isNoOperandInstruction inst.instruction then
    match inst.device with
    | some _ => [instrName inst.instruction ++ " at position " ++ toString i ++
                 " should not have a device"]
    | none => []
  else []

def checkDeviceOperands (instrs : List Instruction) : List String :=
  instrs.enum.flatMap (fun p => checkOperand p.1 p.2)

/-- `InstructionValidator.validate`: accumulate the three diagnostic groups;
never raises, always returns a list of message strings. -/
def validate (instrs : List Instruction) : List String :=
  checkEnd instrs ++ checkStackBalance instrs ++ checkDeviceOperands instrs

/-! ## Ladder IR (`models/ladder.py`) -/

inductive ContactMode where
  | NO | NC
deriving DecidableEq, Repr

/-- `ContactElement` (NO/NC contact on a device string). -/
structure ContactElem where
  device : String
  mode : ContactMode
deriving DecidableEq, Repr

mutual

/-- `SeriesConnection`: ordered elements, each a contact or a nested
parallel branch. -/
inductive SeriesConn where
  | mk (elements : List SeriesItem) : SeriesConn

inductive SeriesItem where
  | contact (c : ContactElem) : SeriesItem
  | par (p : ParallelBr) : SeriesItem

/-- `ParallelBranch`: ordered series-connection legs. -/
inductive ParallelBr where
  | mk (branches : List SeriesConn) : ParallelBr

end

def SeriesConn.elements : SeriesConn → List SeriesItem
  | .mk es => es

def ParallelBr.branches : ParallelBr → List SeriesConn
  | .mk bs => bs

/-- Input section of a rung: `SeriesConnection | ParallelBranch`. -/
inductive InputSection where
  | series (s : SeriesConn)
  | par (p : ParallelBr)

/-- Output elements (`CoilElement | TimerElement | CounterElement |
SetResetElement`). `setReset true` is `type="set"`, `setReset false` is
`type="reset"`. -/
inductive OutputElement where
  | coil (device : String)
  | timer (device : String) (kValue : Int)
  | counter (device : String) (kValue : Int)
  | setReset (isSet : Bool) (device : String)
deriving DecidableEq, Repr

structure Rung where
  number : Nat
  comment : String
  inputSection : InputSection
  outputSection : List OutputElement

structure LadderProgram where
  name : String
  deviceMap : List DeviceAllocation
  rungs : List Rung
  detectedPatterns : List String

/-! ## Ladder builder (`core/ladder.py`) — the operations used by the
self-hold pattern. -/

structure Builder where
  name : String
  rungs : List Rung
  deviceMap : List DeviceAllocation
  detectedPatterns : List String
  rungCounter : Nat

def Builder.init : Builder := ⟨"MAIN", [], [], [], 0⟩

/-- Python `a or b` on strings: the default kicks in when `a` is empty. -/
def orDefault (a b : String) : String := if a = "" then b else a

/-- `add_self_hold_rung`: one rung with input
`(start OR relay) AND NOT stop` and output `relay`. -/
def Builder.addSelfHoldRung (b : Builder) (startDevice stopDevice relayDevice
    comment : String) : Builder :=
  let parallel := ParallelBr.mk
    [SeriesConn.mk [SeriesItem.contact ⟨startDevice, .NO⟩],
     SeriesConn.mk [SeriesItem.contact ⟨relayDevice, .NO⟩]]
  let inputSection := SeriesConn.mk
    [SeriesItem.par parallel, SeriesItem.contact ⟨stopDevice, .NC⟩]
  let rung : Rung :=
    { number := b.rungCounter,
      comment := orDefault comment ("자기유지 회로 (" ++ relayDevice ++ ")"),
      inputSection := .series inputSection,
      outputSection := [.coil relayDevice] }
  { b with rungs := b.rungs ++ [rung], rungCounter := b.rungCounter + 1 }

/-- `add_output_rung`: `LD contact / OUT output`. -/
def Builder.addOutputRung (b : Builder) (contactDevice outputDevice
    comment : String) : Builder :=
  let rung : Rung :=
    { number := b.rungCounter,
      comment := orDefault comment (contactDevice ++ " → " ++ outputDevice),
      inputSection := .series (SeriesConn.mk
        [SeriesItem.contact ⟨contactDevice, .NO⟩]),
      outputSection := [.coil outputDevice] }
  { b with rungs := b.rungs ++ [rung], rungCounter := b.rungCounter + 1 }

/-- `add_pattern`: record a detected pattern tag once. -/
def Builder.addPattern (b : Builder) (patternName : String) : Builder :=
  if patternName ∈ b.detectedPatterns then b
  else { b with detectedPatterns := b.detectedPatterns ++ [patternName] }

/-- `set_device_map` followed by `build`. -/
def Builder.buildProgram (b : Builder) (deviceMap : List DeviceAllocation) :
    LadderProgram :=
  ⟨b.name, deviceMap, b.rungs, b.detectedPatterns⟩

/-! ## Compiler (`core/compiler.py`) -/

/-- LD/LDI instruction for a contact. -/
def ldInstr (c : ContactElem) : Instruction :=
  match c.mode with
  | .NC => ⟨.LDI, some c.device, none⟩
  | .NO => ⟨.LD, some c.device, none⟩

/-- AND/ANI instruction for a contact. -/
def andInstr (c : ContactElem) : Instruction :=
  match c.mode with
  | .NC => ⟨.ANI, some c.device, none⟩
  | .NO => ⟨.AND, some c.device, none⟩

/-- OR/ORI instruction for a contact. -/
def orInstr (c : ContactElem) : Instruction :=
  match c.mode with
  | .NC => ⟨.ORI, some c.device, none⟩
  | .NO => ⟨.OR, some c.device, none⟩

/-- Whether a parallel leg is a single bare contact (the `all_simple` test of
`_compile_parallel`). -/
def isSimpleBranch : SeriesConn → Bool
  | .mk [SeriesItem.contact _] => true
  | _ => false

/-- Fast path of `_compile_parallel`: LD/LDI for the first leg, OR/ORI for
the rest. Only invoked when every leg passed `isSimpleBranch` (other legs
are skipped, mirroring the loop's `isinstance` dispatch). -/
def compileSimpleBranches (isHead : Bool) : List SeriesConn → List Instruction
  | [] => []
  | SeriesConn.mk [SeriesItem.contact c] :: rest =>
    (if isHead then ldInstr c else orInstr c) :: compileSimpleBranches false rest
  | _ :: rest => compileSimpleBranches false rest

mutual

/-- `_compile_series`: the head element emits LD/LDI (a head parallel branch
is lowered bare when the series is the rung's outermost one), later contacts
emit AND/ANI and later parallels are lowered then merged with ANB. The
source also appends ANB to a head parallel of a non-outermost series; no
call site creates that shape (`is_first` is always `True`), and it is kept
faithfully. -/
def compileSeries (isFirst : Bool) : SeriesConn → List Instruction
  | .mk items => compileItems isFirst true items

def compileItems (isFirst isHead : Bool) : List SeriesItem → List Instruction
  | [] => []
  | .contact c :: rest =>
    (if isHead then ldInstr c else andInstr c) :: compileItems isFirst false rest
  | .par p :: rest =>
    (if isHead && isFirst then compileParallel p
     else compileParallel p ++ [⟨.ANB, none, none⟩]) ++
    compileItems isFirst false rest

/-- `_compile_parallel`: fast path when every leg is one bare contact,
otherwise each leg restarts with LD/LDI and legs after the first merge with
ORB. -/
def compileParallel : ParallelBr → List Instruction
  | .mk branches =>
    if branches.all isSimpleBranch then compileSimpleBranches true branches
    else compileGeneralBranches true branches

def compileGeneralBranches (isHead : Bool) : List SeriesConn → List Instruction
  | [] => []
  | b :: rest =>
    (compileSeries true b ++ if isHead then [] else [⟨.ORB, none, none⟩]) ++
    compileGeneralBranches false rest

end

/-- `_compile_input_section`. -/
def compileInputSection : InputSection → List Instruction
  | .series s => compileSeries true s
  | .par p => compileParallel p

/-- `_compile_output`: every output element lowers to exactly one
instruction. -/
def compileOutput : OutputElement → List Instruction
  | .coil d => [⟨.OUT, some d, none⟩]
  | .timer d k => [⟨.OUT, some d, some k⟩]
  | .counter d k => [⟨.OUT, some d, some k⟩]
  | .setReset true d => [⟨.SET, some d, none⟩]
  | .setReset false d => [⟨.RST, some d, none⟩]

/-- The MPS/MRD/MPP instruction placed before output `i` of `count` outputs
(the `enumerate` loop of `_compile_rung` for `count ≥ 2`). -/
def stackInstr (i count : Nat) : Instruction :=
  if i = 0 then ⟨.MPS, none, none⟩
  else if i < count - 1 then ⟨.MRD, none, none⟩
  else ⟨.MPP, none, none⟩

/-- The output loop of `_compile_rung` for two or more outputs, carrying the
running index. -/
def outputLoop (count i : Nat) : List OutputElement → List Instruction
  | [] => []
  | o :: rest => stackInstr i count :: compileOutput o ++ outputLoop count (i + 1) rest

/-- Output section lowering of `_compile_rung`: a single output is emitted
directly, multiple outputs run through the MPS/MRD/MPP loop. -/
def outputPart (os : List OutputElement) : List Instruction :=
  match os with
  | [] => []
  | [o] => compileOutput o
  | _ => outputLoop os.length 0 os

/-- `_compile_rung`: input lowering followed by output lowering; a rung with
no outputs raises a `CompilerError`. -/
def compileRung (r : Rung) : Except String (List Instruction) :=
  match r.outputSection with
  | [] => .error ("Rung " ++ toString r.number ++ " has no output elements")
  | _ => .ok (compileInputSection r.inputSection ++ outputPart r.outputSection)

/-- The per-rung loop of `LadderCompiler.compile`, concatenating in program
order and stopping at the first failing rung. -/
def compileRungs : List Rung → Except String (List Instruction)
  | [] => .ok []
  | r :: rest =>
    match compileRung r with
    | .error e => .error e
    | .ok il =>
      match compileRungs rest with
      | .error e => .error e
      | .ok ils => .ok (il ++ ils)

def endInstr : Instruction := ⟨.END, none, none⟩

/-- `LadderCompiler.compile`: lower every rung in order and append END. -/
def compileProgram (p : LadderProgram) : Except String (List Instruction) :=
  match compileRungs p.rungs with
  | .error e => .error e
  | .ok il => .ok (il ++ [endInstr])

/-! ## Timing model (`models/timing.py`) -/

inductive InputKind where
  | pushButton | toggleSwitch | sensor | limitSwitch
deriving DecidableEq, Repr

inductive InputActMode where
  | momentary | maintained
deriving DecidableEq, Repr

inductive OutputKind where
  | lamp | motor | buzzer | solenoid | relay
deriving DecidableEq, Repr

structure InputDevice where
  name : String
  kind : InputKind := .pushButton
  mode : InputActMode := .momentary
  comment : String := ""
deriving DecidableEq, Repr

structure OutputDevice where
  name : String
  kind : OutputKind := .lamp
  comment : String := ""
deriving DecidableEq, Repr

/-- `SequenceStep`; the delay in seconds is idealised as a rational. -/
structure SequenceStep where
  trigger : String
  action : String
  delay : Option Rat := none
deriving DecidableEq, Repr

structure TimingDescription where
  description : String
  inputs : List InputDevice
  outputs : List OutputDevice
  sequences : List SequenceStep
deriving DecidableEq, Repr

/-! ## Pattern matching (`core/patterns/`) -/

/-- One step's contribution to `has_start` in `SelfHoldPattern.matches`. -/
def selfHoldStartStep (s : SequenceStep) : Bool :=
  pyIn "ON" (pyUpper s.action) && !pyIn "ALL" (pyUpper s.action)

/-- One step's contribution to `has_stop` in `SelfHoldPattern.matches`. -/
def selfHoldStopStep (s : SequenceStep) : Bool :=
  pyIn "OFF" (pyUpper s.action) || pyIn "정지" s.action ||
  pyIn "STOP" (pyUpper s.action)

/-- `SelfHoldPattern.matches` (priority 10): the per-step loop sets two
flags, so the result is an existence check over the steps. -/
def selfHoldMatches (t : TimingDescription) : Bool :=
  t.sequences.any selfHoldStartStep && t.sequences.any selfHoldStopStep &&
  decide (2 ≤ t.inputs.length)

/-- One step's contribution to `has_self_hold` in
`SequentialPattern.matches`: an immediate action whose text carries "ON"
but not "ALL" — the step's trigger is not examined. -/
def seqImmediateOnStep (s : SequenceStep) : Bool :=
  s.delay == none && pyIn "ON" (pyUpper s.action) &&
  !pyIn "ALL" (pyUpper s.action)

/-- One step's contribution to `has_timer`: a positive delay. -/
def seqDelayedStep (s : SequenceStep) : Bool :=
  match s.delay with
  | some d => decide (0 < d)
  | none => false

/-- `SequentialPattern.matches` (priority 20). -/
def sequentialMatches (t : TimingDescription) : Bool :=
  t.sequences.any seqImmediateOnStep && t.sequences.any seqDelayedStep &&
  decide (2 ≤ t.inputs.length)

/-- `FlickerPattern.matches` (priority 15): keyword search over the
lower-cased description text. -/
def flickerMatches (t : TimingDescription) : Bool :=
  ["점멸", "flicker", "blink", "반복", "깜빡"].any
    (fun kw => pyIn kw (pyLower t.description))

/-- `TimerDelayPattern.matches` (priority 5). -/
def timerDelayMatches (t : TimingDescription) : Bool :=
  t.sequences.any seqDelayedStep

/-- One step's contribution to `FullResetPattern.matches` (Python operator
precedence: `A or (B and C)`). -/
def fullResetStep (s : SequenceStep) : Bool :=
  (pyIn "ALL OFF" (pyUpper s.action) ||
   (pyIn "ALL" (pyUpper s.action) && pyIn "OFF" (pyUpper s.action))) ||
  (pyIn "전체" s.action && (pyIn "정지" s.action || pyIn "OFF" (pyUpper s.action)))

/-- `FullResetPattern.matches` (priority 3). -/
def fullResetMatches (t : TimingDescription) : Bool :=
  t.sequences.any fullResetStep

/-- `PatternRegistry.find_best` over `create_default_registry()`: the
registrations (sequential 20, self_hold 10, timer_delay 5, full_reset 3,
flicker 15) stably sorted by priority descending give the probe order
sequential, flicker, self_hold, timer_delay, full_reset; the first match
wins. -/
def selectPattern (t : TimingDescription) : Option String :=
  if sequentialMatches t then some "sequential"
  else if flickerMatches t then some "flicker"
  else if selfHoldMatches t then some "self_hold"
  else if timerDelayMatches t then some "timer_delay"
  else if fullResetMatches t then some "full_reset"
  else none

/-! ## Self-hold generation (`core/patterns/self_hold.py`) -/

/-- The per-step loop at the end of `SelfHoldPattern.generate`: an immediate
step triggered by the start input allocates and emits an output rung for the
first output device named by its action's first token. -/
def selfHoldOutputsLoop (startName relayAddr : String)
    (outputs : List OutputDevice) :
    List SequenceStep → AllocatorSt → Builder →
    Except AllocErr (AllocatorSt × Builder)
  | [], alloc, builder => .ok (alloc, builder)
  | s :: rest, alloc, builder =>
    if s.trigger == startName && s.delay == none then
      let actionName := firstToken s.action
      match outputs.find? (fun o => o.name == actionName) with
      | some out =>
        match allocateOutput alloc out.name (orDefault out.comment out.name) with
        | .error e => .error e
        | .ok (outAlloc, alloc) =>
          let builder := builder.addOutputRung relayAddr
            outAlloc.address.toStr (out.name ++ " 출력")
          selfHoldOutputsLoop startName relayAddr outputs rest alloc builder
      | none => selfHoldOutputsLoop startName relayAddr outputs rest alloc builder
    else
      selfHoldOutputsLoop startName relayAddr outputs rest alloc builder

/-- `SelfHoldPattern.generate`: allocate the first input as start, the last
as stop and a fresh hold relay, emit the self-hold rung, then emit one
relay-gated output rung per immediate action of the start input, and record
the pattern tag. -/
def selfHoldGenerate (t : TimingDescription) (alloc : AllocatorSt)
    (builder : Builder) : Except AllocErr (AllocatorSt × Builder) :=
  if t.inputs.length < 2 then .ok (alloc, builder)
  else
    match t.inputs.head?, t.inputs.getLast? with
    | some startInput, some stopInput =>
      match allocateInput alloc startInput.name
          (orDefault startInput.comment (startInput.name ++ " (시작)")) with
      | .error e => .error e
      | .ok (startAlloc, alloc) =>
        match allocateInput alloc stopInput.name
            (orDefault stopInput.comment (stopInput.name ++ " (정지)")) with
        | .error e => .error e
        | .ok (stopAlloc, alloc) =>
          match allocateRelay alloc ("M_" ++ startInput.name ++ "_HOLD")
              (startInput.name ++ " 자기유지") with
          | .error e => .error e
          | .ok (relayAlloc, alloc) =>
            let startAddr := startAlloc.address.toStr
            let stopAddr := stopAlloc.address.toStr
            let relayAddr := relayAlloc.address.toStr
            let builder := builder.addSelfHoldRung startAddr stopAddr relayAddr
              (startInput.name ++ " 자기유지 회로")
            match selfHoldOutputsLoop startInput.name relayAddr t.outputs
                t.sequences alloc builder with
            | .error e => .error e
            | .ok (alloc, builder) => .ok (alloc, builder.addPattern "self_hold")
    | _, _ => .ok (alloc, builder)

/-- The synthesis tail of `generate_ladder` for a timing description claimed
by the self-hold pattern: run `SelfHoldPattern.generate` on a fresh
allocator and builder, snapshot the device map, and compile the built
program. -/
def selfHoldPipeline (t : TimingDescription) : Except String (List Instruction) :=
  match selfHoldGenerate t AllocatorSt.init Builder.init with
  | .ok (alloc, builder) => compileProgram (builder.buildProgram alloc.allocations)
  | .error _ => .error "device allocation failed"

/-! ## Auxiliary definitions used by the theorems -/

/-- Opcodes that input-network lowering can emit. -/
def isInputOpcode : InstructionType → Bool
  | .LD | .LDI | .AND | .ANI | .OR | .ORI | .ORB | .ANB => true
  | _ => false

/-- Output-emission instructions (OUT / SET / RST). -/
def isEmission (i : Instruction) : Bool :=
  i.instruction == .OUT || i.instruction == .SET || i.instruction == .RST

/-- Number of occurrences of an opcode in an instruction list. -/
def opCount (op : InstructionType) (l : List Instruction) : Nat :=
  l.countP (fun i => i.instruction == op)

/-- Number of output emissions in an instruction list. -/
def emissionCount (l : List Instruction) : Nat := l.countP isEmission

/-- The lowering of a compilable rung (what `compileRung` returns on the
non-error path). -/
def rungIL (r : Rung) : List Instruction :=
  compileInputSection r.inputSection ++ outputPart r.outputSection

/-- The branch-stack depth after the validator's clamped MPS/MPP walk over a
list, starting from `d` (mirrors the depth variable of
`_check_stack_balance`). -/
def stackResidual : List Instruction → Int → Int
  | [], d => d
  | inst :: rest, d =>
    if inst.instruction = InstructionType.MPS then stackResidual rest (d + 1)
    else if inst.instruction = InstructionType.MPP then
      if d - 1 < 0 then stackResidual rest 0 else stackResidual rest (d - 1)
    else stackResidual rest d

/-- Scenario A timing description (inputs PB1/PB2, output LAMP, steps
PB1 → "LAMP ON" and PB2 → "ALL OFF"), parametrised by the free description
text. -/
def timingA (desc : String) : TimingDescription :=
  { description := desc,
    inputs := [{ name := "PB1" }, { name := "PB2" }],
    outputs := [{ name := "LAMP" }],
    sequences := [⟨"PB1", "LAMP ON", none⟩, ⟨"PB2", "ALL OFF", none⟩] }

/-- Condition that the specification claims is equivalent to
`SequentialPattern.matches`: an immediate "ON" step whose trigger is the
first declared input, at least one positively delayed step, and at least
two inputs. Stated from the claim's words, to be compared with the
source-derived `sequentialMatches`. -/
def sequentialMatchesSpec (t : TimingDescription) : Bool :=
  (match t.inputs.head? with
   | some first => t.sequences.any (fun s =>
       s.delay == none && pyIn "ON" (pyUpper s.action) && s.trigger == first.name)
   | none => false) &&
  t.sequences.any seqDelayedStep && decide (2 ≤ t.inputs.length)

/-- Timing description separating `sequentialMatches` from the claim's
condition: the immediate "ON" step is triggered by input B, not the first
declared input A. -/
def timingSeqDiff : TimingDescription :=
  { description := "d",
    inputs := [{ name := "A" }, { name := "B" }],
    outputs := [],
    sequences := [⟨"B", "X ON", none⟩, ⟨"A", "Y ON", some 2⟩] }

/-- Allocator state holding a single allocation "A" at X0 (made with
preferred address 0), used to exercise a preferred-address collision. -/
def c6State : AllocatorSt :=
  match allocate AllocatorSt.init "A" .X "" none (some 0) with
  | .ok (_, s) => s
  | .error _ => AllocatorSt.init

/-- First allocation of logical name "PB1" from a fresh allocator. -/
def pb1Alloc : DeviceAllocation :=
  match allocate AllocatorSt.init "PB1" .X "start" none none with
  | .ok (a, _) => a
  | .error _ => ⟨"", ⟨.X, 0⟩, "", none⟩

/-- Allocator state after the allocation of `pb1Alloc`. -/
def c7State : AllocatorSt :=
  match allocate AllocatorSt.init "PB1" .X "start" none none with
  | .ok (_, s) => s
  | .error _ => AllocatorSt.init

/-- One-output rung used as a concrete witness. -/
def rungW : Rung :=
  ⟨0, "", .series (SeriesConn.mk [SeriesItem.contact ⟨"X0", .NO⟩]),
   [.coil "Y0"]⟩

/-- Two-output rung used as a concrete witness. -/
def rungW2 : Rung :=
  ⟨1, "", .series (SeriesConn.mk [SeriesItem.contact ⟨"X0", .NO⟩]),
   [.coil "Y0", .coil "Y1"]⟩

/-- One-rung program used as a concrete witness. -/
def progW : LadderProgram := ⟨"MAIN", [], [rungW], []⟩

/-! ## Helper lemmas -/

theorem find?_append_of_none {α : Type} (p : α → Bool) (l1 l2 : List α)
    (h : l1.find? p = none) : (l1 ++ l2).find? p = l2.find? p := by
  induction l1 with
  | nil => simp
  | cons x xs ih =>
    rw [List.find?_cons] at h
    cases hp : p x with
    | true => simp [hp] at h
    | false =>
      rw [List.cons_append, List.find?_cons, hp]
      exact ih (by simpa [hp] using h)

theorem findFreeGo_error_range (taken : List Nat) (limit : Nat) :
    ∀ fuel addr e, findFreeGo taken limit fuel addr = .error e →
      ∃ m, e = .range m := by
  intro fuel
  induction fuel with
  | zero =>
    intro addr e h
    simp only [findFreeGo, Except.error.injEq] at h
    exact ⟨_, h.symm⟩
  | succ fuel ih =>
    intro addr e h
    simp only [findFreeGo] at h
    by_cases h1 : addr ∈ taken
    · rw [if_pos h1] at h
      by_cases h2 : limit ≤ addr + 1
      · rw [if_pos h2] at h
        simp only [Except.error.injEq] at h
        exact ⟨_, h.symm⟩
      · rw [if_neg h2] at h
        exact ih _ _ h
    · rw [if_neg h1] at h
      simp at h

theorem findFreeGo_ok (taken : List Nat) (limit : Nat) :
    ∀ fuel addr r, findFreeGo taken limit fuel addr = .ok r →
      addr ≤ r ∧ r ∉ taken ∧ ∀ q, addr ≤ q → q < r → q ∈ taken := by
  intro fuel
  induction fuel with
  | zero =>
    intro addr r h
    simp [findFreeGo] at h
  | succ fuel ih =>
    intro addr r h
    simp only [findFreeGo] at h
    by_cases h1 : addr ∈ taken
    · rw [if_pos h1] at h
      by_cases h2 : limit ≤ addr + 1
      · rw [if_pos h2] at h
        simp at h
      · rw [if_neg h2] at h
        obtain ⟨hle, hnot, hcover⟩ := ih _ _ h
        refine ⟨by omega, hnot, fun q hq1 hq2 => ?_⟩
        rcases Nat.eq_or_lt_of_le hq1 with rfl | hlt
        · exact h1
        · exact hcover q (by omega) hq2
    · rw [if_neg h1] at h
      simp only [Except.ok.injEq] at h
      subst h
      exact ⟨Nat.le_refl _, h1, fun q hq1 hq2 => absurd hq2 (by omega)⟩

theorem findFreeFrom_error_range (taken : List Nat) (limit addr : Nat)
    (e : AllocErr) (h : findFreeFrom taken limit addr = .error e) :
    ∃ m, e = .range m :=
  findFreeGo_error_range taken limit _ addr e h

theorem findFreeFrom_ok (taken : List Nat) (limit addr r : Nat)
    (h : findFreeFrom taken limit addr = .ok r) :
    addr ≤ r ∧ r ∉ taken ∧ ∀ q, addr ≤ q → q < r → q ∈ taken :=
  findFreeGo_ok taken limit _ addr r h

theorem seqImmediateOnStep_iff (s : SequenceStep) :
    seqImmediateOnStep s = true ↔
      s.delay = none ∧ pyIn "ON" (pyUpper s.action) = true ∧
      pyIn "ALL" (pyUpper s.action) = false := by
  simp [seqImmediateOnStep, Bool.and_eq_true, and_assoc]

theorem seqDelayedStep_iff (s : SequenceStep) :
    seqDelayedStep s = true ↔ ∃ d, s.delay = some d ∧ 0 < d := by
  cases h : s.delay <;> simp [seqDelayedStep, h]

theorem ldInstr_opcode (c : ContactElem) :
    isInputOpcode (ldInstr c).instruction = true := by
  obtain ⟨d, m⟩ := c
  cases m <;> rfl

theorem andInstr_opcode (c : ContactElem) :
    isInputOpcode (andInstr c).instruction = true := by
  obtain ⟨d, m⟩ := c
  cases m <;> rfl

theorem orInstr_opcode (c : ContactElem) :
    isInputOpcode (orInstr c).instruction = true := by
  obtain ⟨d, m⟩ := c
  cases m <;> rfl

theorem compileSimpleBranches_opcodes :
    ∀ (bs : List SeriesConn) (hd : Bool),
      ∀ ins ∈ compileSimpleBranches hd bs, isInputOpcode ins.instruction = true := by
  intro bs
  induction bs with
  | nil =>
    intro hd ins h
    simp [compileSimpleBranches] at h
  | cons b rest ih =>
    intro hd ins h
    obtain ⟨elems⟩ := b
    match elems with
    | [] =>
      simp only [compileSimpleBranches] at h
      exact ih false ins h
    | [SeriesItem.contact c] =>
      simp only [compileSimpleBranches] at h
      rcases List.mem_cons.mp h with rfl | h2
      · cases hd
        · simpa using orInstr_opcode c
        · simpa using ldInstr_opcode c
      · exact ih false ins h2
    | SeriesItem.contact c :: e2 :: es =>
      simp only [compileSimpleBranches] at h
      exact ih false ins h
    | SeriesItem.par q :: es =>
      simp only [compileSimpleBranches] at h
      exact ih false ins h

theorem compileInput_opcodes_aux : ∀ n : Nat,
    (∀ (fb : Bool) (s : SeriesConn), sizeOf s ≤ n →
      ∀ ins ∈ compileSeries fb s, isInputOpcode ins.instruction = true) ∧
    (∀ (f hd : Bool) (items : List SeriesItem), sizeOf items ≤ n →
      ∀ ins ∈ compileItems f hd items, isInputOpcode ins.instruction = true) ∧
    (∀ p : ParallelBr, sizeOf p ≤ n →
      ∀ ins ∈ compileParallel p, isInputOpcode ins.instruction = true) ∧
    (∀ (hd : Bool) (bs : List SeriesConn), sizeOf bs ≤ n →
      ∀ ins ∈ compileGeneralBranches hd bs, isInputOpcode ins.instruction = true) := by
  intro n
  induction n using Nat.strong_induction_on with
  | _ n IH =>
    refine ⟨?_, ?_, ?_, ?_⟩
    · intro fb s hs ins hins
      obtain ⟨items⟩ := s
      simp only [compileSeries] at hins
      have hsz : sizeOf (SeriesConn.mk items) = 1 + sizeOf items := by simp
      exact (IH (sizeOf items) (by omega)).2.1 fb true items (le_refl _) ins hins
    · intro f hd items hs ins hins
      match items with
      | [] => simp [compileItems] at hins
      | SeriesItem.contact c :: rest =>
        simp only [compileItems] at hins
        have hsz : sizeOf (SeriesItem.contact c :: rest) =
            1 + sizeOf (SeriesItem.contact c) + sizeOf rest := by simp
        have hc : 1 ≤ sizeOf (SeriesItem.contact c) := by
          simp
        rcases List.mem_cons.mp hins with rfl | h2
        · cases hd
          · simpa using andInstr_opcode c
          · simpa using ldInstr_opcode c
        · exact (IH (sizeOf rest) (by omega)).2.1 f false rest (le_refl _) ins h2
      | SeriesItem.par q :: rest =>
        simp only [compileItems] at hins
        have hsz : sizeOf (SeriesItem.par q :: rest) =
            1 + sizeOf (SeriesItem.par q) + sizeOf rest := by simp
        have hq : sizeOf (SeriesItem.par q) = 1 + sizeOf q := by simp
        rcases List.mem_append.mp hins with h1 | h2
        · rcases hb : hd && f with _ | _
          · rw [hb] at h1
            simp only [Bool.false_eq_true, if_false] at h1
            rcases List.mem_append.mp h1 with h3 | h4
            · exact (IH (sizeOf q) (by omega)).2.2.1 q (le_refl _) ins h3
            · have : ins = ⟨.ANB, none, none⟩ := by simpa using h4
              subst this
              rfl
          · rw [hb] at h1
            simp only [if_true] at h1
            exact (IH (sizeOf q) (by omega)).2.2.1 q (le_refl _) ins h1
        · exact (IH (sizeOf rest) (by omega)).2.1 f false rest (le_refl _) ins h2
    · intro p hp ins hins
      obtain ⟨bs⟩ := p
      simp only [compileParallel] at hins
      have hsz : sizeOf (ParallelBr.mk bs) = 1 + sizeOf bs := by simp
      rcases hall : bs.all isSimpleBranch with _ | _
      · rw [hall] at hins
        simp only [Bool.false_eq_true, if_false] at hins
        exact (IH (sizeOf bs) (by omega)).2.2.2 true bs (le_refl _) ins hins
      · rw [hall] at hins
        simp only [if_true] at hins
        exact compileSimpleBranches_opcodes bs true ins hins
    · intro hd bs hs ins hins
      match bs with
      | [] => simp [compileGeneralBranches] at hins
      | b :: rest =>
        simp only [compileGeneralBranches] at hins
        have hsz : sizeOf (b :: rest) = 1 + sizeOf b + sizeOf rest := by simp
        rcases List.mem_append.mp hins with h1 | h2
        · rcases List.mem_append.mp h1 with h3 | h4
          · exact (IH (sizeOf b) (by omega)).1 true b (le_refl _) ins h3
          · cases hd
            · have : ins = ⟨.ORB, none, none⟩ := by simpa using h4
              subst this
              rfl
            · simp at h4
        · exact (IH (sizeOf rest) (by omega)).2.2.2 false rest (le_refl _) ins h2

theorem compileInputSection_opcodes (sec : InputSection) :
    ∀ ins ∈ compileInputSection sec, isInputOpcode ins.instruction = true := by
  cases sec with
  | series s =>
    exact (compileInput_opcodes_aux (sizeOf s)).1 true s (le_refl _)
  | par p =>
    exact (compileInput_opcodes_aux (sizeOf p)).2.2.1 p (le_refl _)

theorem emissionOp_false_of_input (i : InstructionType)
    (h : isInputOpcode i = true) :
    (i == InstructionType.OUT || i == InstructionType.SET ||
     i == InstructionType.RST) = false := by
  cases i <;> first | rfl | exact absurd h (by decide)

theorem isEmission_false_of_input (ins : Instruction)
    (h : isInputOpcode ins.instruction = true) : isEmission ins = false := by
  unfold isEmission
  exact emissionOp_false_of_input ins.instruction h

theorem inputSection_opCount (sec : InputSection) (op : InstructionType)
    (hop : isInputOpcode op = false) :
    opCount op (compileInputSection sec) = 0 := by
  unfold opCount
  apply List.countP_eq_zero.mpr
  intro a ha
  have hin := compileInputSection_opcodes sec a ha
  intro hcon
  rw [beq_iff_eq] at hcon
  rw [hcon] at hin
  rw [hin] at hop
  cases hop

theorem inputSection_emissionCount (sec : InputSection) :
    emissionCount (compileInputSection sec) = 0 := by
  unfold emissionCount
  apply List.countP_eq_zero.mpr
  intro a ha
  have hin := compileInputSection_opcodes sec a ha
  rw [isEmission_false_of_input a hin]
  simp

theorem compileOutput_opcode (o : OutputElement) :
    ∀ ins ∈ compileOutput o, ins.instruction = .OUT ∨
      ins.instruction = .SET ∨ ins.instruction = .RST := by
  cases o with
  | coil d =>
    intro ins h
    simp only [compileOutput, List.mem_singleton] at h
    subst h
    simp
  | timer d k =>
    intro ins h
    simp only [compileOutput, List.mem_singleton] at h
    subst h
    simp
  | counter d k =>
    intro ins h
    simp only [compileOutput, List.mem_singleton] at h
    subst h
    simp
  | setReset b d =>
    intro ins h
    cases b <;> simp only [compileOutput, List.mem_singleton] at h <;> subst h <;> simp

theorem compileOutput_emissionCount (o : OutputElement) :
    emissionCount (compileOutput o) = 1 := by
  cases o with
  | coil d => rfl
  | timer d k => rfl
  | counter d k => rfl
  | setReset b d => cases b <;> rfl

theorem compileOutput_opCount (o : OutputElement) (op : InstructionType)
    (h1 : op ≠ .OUT) (h2 : op ≠ .SET) (h3 : op ≠ .RST) :
    opCount op (compileOutput o) = 0 := by
  unfold opCount
  apply List.countP_eq_zero.mpr
  intro a ha
  intro hcon
  rw [beq_iff_eq] at hcon
  rcases compileOutput_opcode o a ha with h | h | h
  · rw [hcon] at h
    exact h1 h
  · rw [hcon] at h
    exact h2 h
  · rw [hcon] at h
    exact h3 h

theorem stackInstr_not_emission (i count : Nat) :
    isEmission (stackInstr i count) = false := by
  unfold stackInstr
  split_ifs <;> rfl

theorem stackInstr_ne_end (i count : Nat) :
    ((stackInstr i count).instruction == InstructionType.END) = false := by
  unfold stackInstr
  split_ifs <;> rfl

theorem outputLoop_emissionCount :
    ∀ (os : List OutputElement) (count i : Nat),
      emissionCount (outputLoop count i os) = os.length := by
  intro os
  induction os with
  | nil => intro count i; rfl
  | cons o rest ih =>
    intro count i
    simp only [outputLoop, emissionCount, List.countP_cons, List.countP_append]
    rw [stackInstr_not_emission]
    have h1 := compileOutput_emissionCount o
    unfold emissionCount at h1
    have h2 := ih count (i + 1)
    unfold emissionCount at h2
    rw [h1, h2]
    simp only [Bool.false_eq_true, if_false, List.length_cons]
    omega

theorem outputLoop_end :
    ∀ (os : List OutputElement) (count i : Nat),
      opCount .END (outputLoop count i os) = 0 := by
  intro os
  induction os with
  | nil => intro count i; rfl
  | cons o rest ih =>
    intro count i
    simp only [outputLoop, opCount, List.countP_cons, List.countP_append]
    rw [stackInstr_ne_end]
    have h1 := compileOutput_opCount o .END (by decide) (by decide) (by decide)
    unfold opCount at h1
    have h2 := ih count (i + 1)
    unfold opCount at h2
    rw [h1, h2]
    simp

theorem outputPart_emissionCount (os : List OutputElement) :
    emissionCount (outputPart os) = os.length := by
  match os with
  | [] => rfl
  | [o] =>
    have := compileOutput_emissionCount o
    simpa [outputPart] using this
  | o :: y :: ys =>
    have := outputLoop_emissionCount (o :: y :: ys) (o :: y :: ys).length 0
    simpa [outputPart] using this

theorem outputPart_end (os : List OutputElement) :
    opCount .END (outputPart os) = 0 := by
  match os with
  | [] => rfl
  | [o] =>
    have := compileOutput_opCount o .END (by decide) (by decide) (by decide)
    simpa [outputPart] using this
  | o :: y :: ys =>
    have := outputLoop_end (o :: y :: ys) (o :: y :: ys).length 0
    simpa [outputPart] using this

theorem outputLoop_shape :
    ∀ (mid : List OutputElement) (last : OutputElement) (i count : Nat),
      count = i + mid.length + 1 → 1 ≤ i →
      outputLoop count i (mid ++ [last]) =
        mid.flatMap (fun x => ⟨.MRD, none, none⟩ :: compileOutput x) ++
        (⟨.MPP, none, none⟩ :: compileOutput last) := by
  intro mid
  induction mid with
  | nil =>
    intro last i count hc hi
    have hs : stackInstr i count = ⟨.MPP, none, none⟩ := by
      unfold stackInstr
      rw [if_neg (by omega), if_neg (by simp at hc; omega)]
    simp only [List.nil_append, outputLoop, hs, List.flatMap_nil]
    simp
  | cons m mid ih =>
    intro last i count hc hi
    simp only [List.length_cons] at hc
    have hs : stackInstr i count = ⟨.MRD, none, none⟩ := by
      unfold stackInstr
      rw [if_neg (by omega), if_pos (by omega)]
    simp only [List.cons_append, outputLoop, hs]
    simp only [List.append_eq]
    rw [ih last (i + 1) count (by omega) (by omega)]
    simp [List.append_assoc]

theorem outputPart_multi (o : OutputElement) (mid : List OutputElement)
    (last : OutputElement) :
    outputPart (o :: (mid ++ [last])) =
      ⟨.MPS, none, none⟩ :: (compileOutput o ++
        (mid.flatMap (fun x => ⟨.MRD, none, none⟩ :: compileOutput x) ++
         (⟨.MPP, none, none⟩ :: compileOutput last))) := by
  obtain ⟨y, ys, hy⟩ : ∃ y ys, mid ++ [last] = y :: ys := by
    cases hmm : mid ++ [last] with
    | nil => exact absurd hmm (by simp)
    | cons a b => exact ⟨a, b, rfl⟩
  rw [hy]
  have hred : outputPart (o :: y :: ys) =
      outputLoop (o :: y :: ys).length 0 (o :: y :: ys) := rfl
  rw [hred]
  have hmps : stackInstr 0 (o :: y :: ys).length = ⟨.MPS, none, none⟩ := by
    unfold stackInstr
    rw [if_pos rfl]
  have hstep : outputLoop (o :: y :: ys).length 0 (o :: y :: ys) =
      stackInstr 0 (o :: y :: ys).length ::
        (compileOutput o ++ outputLoop (o :: y :: ys).length 1 (y :: ys)) := rfl
  rw [hstep, hmps, ← hy]
  rw [outputLoop_shape mid last 1 (o :: (mid ++ [last])).length
    (by simp; omega) (le_refl 1)]

theorem flatMap_opCount (mid : List OutputElement) (op : InstructionType)
    (h0 : op ≠ .MRD) (h1 : op ≠ .OUT) (h2 : op ≠ .SET) (h3 : op ≠ .RST) :
    opCount op (mid.flatMap (fun x => ⟨.MRD, none, none⟩ :: compileOutput x)) = 0 := by
  induction mid with
  | nil => rfl
  | cons m mid ih =>
    simp only [List.flatMap_cons, opCount, List.countP_cons, List.countP_append]
    have hm := compileOutput_opCount m op h1 h2 h3
    unfold opCount at hm ih
    rw [hm, ih]
    have : (InstructionType.MRD == op) = false := by
      rw [beq_eq_false_iff_ne]
      exact fun hcon => h0 hcon.symm
    simp [this]

theorem shape_opCount_MPS (o : OutputElement) (mid : List OutputElement)
    (last : OutputElement) :
    opCount .MPS (⟨.MPS, none, none⟩ :: (compileOutput o ++
      (mid.flatMap (fun x => ⟨.MRD, none, none⟩ :: compileOutput x) ++
       (⟨.MPP, none, none⟩ :: compileOutput last)))) = 1 := by
  simp only [opCount, List.countP_cons, List.countP_append]
  have h1 := compileOutput_opCount o .MPS (by decide) (by decide) (by decide)
  have h2 := flatMap_opCount mid .MPS (by decide) (by decide) (by decide) (by decide)
  have h3 := compileOutput_opCount last .MPS (by decide) (by decide) (by decide)
  unfold opCount at h1 h2 h3
  rw [h1, h2, h3]
  rfl

theorem shape_opCount_MPP (o : OutputElement) (mid : List OutputElement)
    (last : OutputElement) :
    opCount .MPP (⟨.MPS, none, none⟩ :: (compileOutput o ++
      (mid.flatMap (fun x => ⟨.MRD, none, none⟩ :: compileOutput x) ++
       (⟨.MPP, none, none⟩ :: compileOutput last)))) = 1 := by
  simp only [opCount, List.countP_cons, List.countP_append]
  have h1 := compileOutput_opCount o .MPP (by decide) (by decide) (by decide)
  have h2 := flatMap_opCount mid .MPP (by decide) (by decide) (by decide) (by decide)
  have h3 := compileOutput_opCount last .MPP (by decide) (by decide) (by decide)
  unfold opCount at h1 h2 h3
  rw [h1, h2, h3]
  rfl

theorem compileRung_ok (r : Rung) (h : r.outputSection ≠ []) :
    compileRung r = .ok (rungIL r) := by
  unfold compileRung rungIL
  cases hos : r.outputSection with
  | nil => exact absurd hos h
  | cons o rest => rfl

theorem outputPart_MPS_eq_MPP (os : List OutputElement) :
    opCount .MPS (outputPart os) = opCount .MPP (outputPart os) := by
  match os with
  | [] => rfl
  | [o] =>
    show opCount .MPS (compileOutput o) = opCount .MPP (compileOutput o)
    rw [compileOutput_opCount o .MPS (by decide) (by decide) (by decide),
      compileOutput_opCount o .MPP (by decide) (by decide) (by decide)]
  | o :: y :: ys =>
    have hne : y :: ys ≠ ([] : List OutputElement) := by simp
    rw [show (o :: y :: ys) =
        o :: ((y :: ys).dropLast ++ [(y :: ys).getLast hne]) from by
      rw [List.dropLast_append_getLast hne]]
    rw [outputPart_multi]
    rw [shape_opCount_MPS, shape_opCount_MPP]

theorem rungIL_end (r : Rung) : opCount .END (rungIL r) = 0 := by
  unfold rungIL opCount
  rw [List.countP_append]
  have hA := inputSection_opCount r.inputSection .END (by decide)
  have hB := outputPart_end r.outputSection
  unfold opCount at hA hB
  rw [hA, hB]

theorem flatMapRungIL_end (rs : List Rung) :
    opCount .END (rs.flatMap rungIL) = 0 := by
  induction rs with
  | nil => rfl
  | cons r rest ih =>
    simp only [List.flatMap_cons, opCount, List.countP_append]
    have h1 := rungIL_end r
    unfold opCount at h1 ih
    rw [h1, ih]

theorem compileRungs_ok_of :
    ∀ rs : List Rung, (∀ r ∈ rs, r.outputSection ≠ []) →
      compileRungs rs = .ok (rs.flatMap rungIL) := by
  intro rs
  induction rs with
  | nil => intro h; rfl
  | cons r rest ih =>
    intro h
    have hr := compileRung_ok r (h r (List.mem_cons_self _ _))
    have hrest := ih (fun x hx => h x (List.mem_cons_of_mem _ hx))
    simp only [compileRungs, hr, hrest]
    simp [List.flatMap_cons]

theorem compileRungs_error_of :
    ∀ rs : List Rung, (∃ r ∈ rs, r.outputSection = []) →
      ∃ e, compileRungs rs = .error e := by
  intro rs
  induction rs with
  | nil =>
    rintro ⟨r, hr, _⟩
    simp at hr
  | cons r rest ih =>
    rintro ⟨x, hx, hempty⟩
    rcases List.mem_cons.mp hx with rfl | hx2
    · have hcr : compileRung x =
          .error ("Rung " ++ toString x.number ++ " has no output elements") := by
        unfold compileRung
        rw [hempty]
      exact ⟨"Rung " ++ toString x.number ++ " has no output elements",
        by simp only [compileRungs, hcr]⟩
    · cases hcr : compileRung r with
      | error e => exact ⟨e, by simp only [compileRungs, hcr]⟩
      | ok il =>
        obtain ⟨e, he⟩ := ih ⟨x, hx2, hempty⟩
        exact ⟨e, by simp only [compileRungs, hcr, he]⟩

theorem checkStackAux_imbalance :
    ∀ (l : List Instruction) (i : Nat) (d : Int), stackResidual l d ≠ 0 →
      imbalanceMsg (stackResidual l d) ∈ checkStackAux l i d := by
  intro l
  induction l with
  | nil =>
    intro i d h
    simp only [stackResidual] at h ⊢
    simp [checkStackAux, h]
  | cons inst rest ih =>
    intro i d h
    by_cases h1 : inst.instruction = InstructionType.MPS
    · simp only [stackResidual, if_pos h1] at h ⊢
      simp only [checkStackAux, if_pos h1]
      exact ih _ _ h
    · by_cases h2 : inst.instruction = InstructionType.MPP
      · by_cases h3 : d - 1 < 0
        · simp only [stackResidual, if_neg h1, if_pos h2, if_pos h3] at h ⊢
          simp only [checkStackAux, if_neg h1, if_pos h2, if_pos h3]
          exact List.mem_cons_of_mem _ (ih _ _ h)
        · simp only [stackResidual, if_neg h1, if_pos h2, if_neg h3] at h ⊢
          simp only [checkStackAux, if_neg h1, if_pos h2, if_neg h3]
          exact ih _ _ h
      · simp only [stackResidual, if_neg h1, if_neg h2] at h ⊢
        simp only [checkStackAux, if_neg h1, if_neg h2]
        exact ih _ _ h

theorem checkStackAux_mpp :
    ∀ (l : List Instruction) (i : Nat) (d : Int) (k : Nat)
      (hk : k < l.length),
      (l.get ⟨k, hk⟩).instruction = InstructionType.MPP →
      stackResidual (l.take k) d = 0 →
      mppMsg (i + k) ∈ checkStackAux l i d := by
  intro l
  induction l with
  | nil =>
    intro i d k hk
    simp at hk
  | cons inst rest ih =>
    intro i d k hk hMPP hres
    cases k with
    | zero =>
      simp only [List.get] at hMPP
      simp only [List.take, stackResidual] at hres
      subst hres
      have h1 : ¬inst.instruction = InstructionType.MPS := by simp [hMPP]
      simp only [checkStackAux, if_neg h1, if_pos hMPP,
        if_pos (by omega : (0:Int) - 1 < 0)]
      simp
    | succ k =>
      have hk2 : k < rest.length := by simpa using hk
      have hMPP2 : (rest.get ⟨k, hk2⟩).instruction = InstructionType.MPP := by
        simpa using hMPP
      have harith : i + 1 + k = i + (k + 1) := by omega
      by_cases h1 : inst.instruction = InstructionType.MPS
      · simp only [List.take, stackResidual, if_pos h1] at hres
        simp only [checkStackAux, if_pos h1]
        have := ih (i + 1) (d + 1) k hk2 hMPP2 hres
        rwa [harith] at this
      · by_cases h2 : inst.instruction = InstructionType.MPP
        · by_cases h3 : d - 1 < 0
          · simp only [List.take, stackResidual, if_neg h1, if_pos h2,
              if_pos h3] at hres
            simp only [checkStackAux, if_neg h1, if_pos h2, if_pos h3]
            have := ih (i + 1) 0 k hk2 hMPP2 hres
            rw [harith] at this
            exact List.mem_cons_of_mem _ this
          · simp only [List.take, stackResidual, if_neg h1, if_pos h2,
              if_neg h3] at hres
            simp only [checkStackAux, if_neg h1, if_pos h2, if_neg h3]
            have := ih (i + 1) (d - 1) k hk2 hMPP2 hres
            rwa [harith] at this
        · simp only [List.take, stackResidual, if_neg h1, if_neg h2] at hres
          simp only [checkStackAux, if_neg h1, if_neg h2]
          have := ih (i + 1) d k hk2 hMPP2 hres
          rwa [harith] at this

/-! ## Claim theorems -/

/-- C1: for a TimingDescription with inputs PB1 (start) and PB2 (stop),
output LAMP, and sequence steps [PB1 → "LAMP ON" with no delay,
PB2 → "ALL OFF" with no delay] (any description text not claimed by the
flicker keyword search), pattern selection picks the self-hold pattern and
self-hold generation followed by compilation produces exactly
LD X0, OR M0, ANI X1, OUT M0, LD M0, OUT Y0, END. -/
theorem C1_scenarioA (desc : String)
    (h : flickerMatches (timingA desc) = false) :
    selectPattern (timingA desc) = some "self_hold" ∧
    selfHoldPipeline (timingA desc) = .ok
      [⟨.LD, some "X0", none⟩, ⟨.OR, some "M0", none⟩, ⟨.ANI, some "X1", none⟩,
       ⟨.OUT, some "M0", none⟩, ⟨.LD, some "M0", none⟩, ⟨.OUT, some "Y0", none⟩,
       ⟨.END, none, none⟩] := by
  constructor
  · have hs : sequentialMatches (timingA desc) = false := rfl
    have hh : selfHoldMatches (timingA desc) = true := rfl
    simp [selectPattern, hs, h, hh]
  · rfl

theorem C1_scenarioA_witness :
    flickerMatches (timingA "PB1을 누르면 Y0 ON, PB2를 누르면 Y0 OFF") = false ∧
    (selectPattern (timingA "PB1을 누르면 Y0 ON, PB2를 누르면 Y0 OFF") =
       some "self_hold" ∧
     selfHoldPipeline (timingA "PB1을 누르면 Y0 ON, PB2를 누르면 Y0 OFF") = .ok
      [⟨.LD, some "X0", none⟩, ⟨.OR, some "M0", none⟩, ⟨.ANI, some "X1", none⟩,
       ⟨.OUT, some "M0", none⟩, ⟨.LD, some "M0", none⟩, ⟨.OUT, some "Y0", none⟩,
       ⟨.END, none, none⟩]) :=
  ⟨rfl, C1_scenarioA _ rfl⟩

/-- C2: for every rung with N ≥ 1 outputs, the lowering is the input-section
instructions followed by the output block; the compiled rung carries exactly
N output-emission instructions (OUT/SET/RST); with a single output no
MPS/MRD/MPP is emitted; with N ≥ 2 outputs the block is MPS before output 1,
MRD before each interior output and MPP before the last; and the rung's MPS
and MPP counts agree, so its net branch-stack depth is 0. -/
theorem C2_rung_outputs (r : Rung) (h : r.outputSection ≠ []) :
    compileRung r = .ok (rungIL r) ∧
    emissionCount (rungIL r) = r.outputSection.length ∧
    (∀ o, r.outputSection = [o] →
      outputPart r.outputSection = compileOutput o ∧
      opCount .MPS (rungIL r) = 0 ∧ opCount .MRD (rungIL r) = 0 ∧
      opCount .MPP (rungIL r) = 0) ∧
    (∀ o mid last, r.outputSection = o :: (mid ++ [last]) →
      outputPart r.outputSection =
        ⟨.MPS, none, none⟩ :: (compileOutput o ++
          (mid.flatMap (fun x => ⟨.MRD, none, none⟩ :: compileOutput x) ++
           (⟨.MPP, none, none⟩ :: compileOutput last)))) ∧
    opCount .MPS (rungIL r) = opCount .MPP (rungIL r) := by
  refine ⟨compileRung_ok r h, ?_, ?_, ?_, ?_⟩
  · unfold rungIL emissionCount
    rw [List.countP_append]
    have h1 := inputSection_emissionCount r.inputSection
    have h2 := outputPart_emissionCount r.outputSection
    unfold emissionCount at h1 h2
    rw [h1, h2]
    simp
  · intro o ho
    refine ⟨by rw [ho]; rfl, ?_, ?_, ?_⟩
    all_goals
      unfold rungIL opCount
      rw [List.countP_append]
    · have hA := inputSection_opCount r.inputSection .MPS (by decide)
      have hB := compileOutput_opCount o .MPS (by decide) (by decide) (by decide)
      unfold opCount at hA hB
      rw [ho, hA, Nat.zero_add]
      exact hB
    · have hA := inputSection_opCount r.inputSection .MRD (by decide)
      have hB := compileOutput_opCount o .MRD (by decide) (by decide) (by decide)
      unfold opCount at hA hB
      rw [ho, hA, Nat.zero_add]
      exact hB
    · have hA := inputSection_opCount r.inputSection .MPP (by decide)
      have hB := compileOutput_opCount o .MPP (by decide) (by decide) (by decide)
      unfold opCount at hA hB
      rw [ho, hA, Nat.zero_add]
      exact hB
  · intro o mid last ho
    rw [ho]
    exact outputPart_multi o mid last
  · unfold rungIL opCount
    rw [List.countP_append, List.countP_append]
    have hA := inputSection_opCount r.inputSection .MPS (by decide)
    have hB := inputSection_opCount r.inputSection .MPP (by decide)
    have hC := outputPart_MPS_eq_MPP r.outputSection
    unfold opCount at hA hB hC
    rw [hA, hB, hC]

theorem C2_rung_outputs_witness :
    rungW2.outputSection ≠ [] ∧
    (compileRung rungW2 = .ok (rungIL rungW2) ∧
     emissionCount (rungIL rungW2) = rungW2.outputSection.length ∧
     (∀ o, rungW2.outputSection = [o] →
       outputPart rungW2.outputSection = compileOutput o ∧
       opCount .MPS (rungIL rungW2) = 0 ∧ opCount .MRD (rungIL rungW2) = 0 ∧
       opCount .MPP (rungIL rungW2) = 0) ∧
     (∀ o mid last, rungW2.outputSection = o :: (mid ++ [last]) →
       outputPart rungW2.outputSection =
         ⟨.MPS, none, none⟩ :: (compileOutput o ++
           (mid.flatMap (fun x => ⟨.MRD, none, none⟩ :: compileOutput x) ++
            (⟨.MPP, none, none⟩ :: compileOutput last)))) ∧
     opCount .MPS (rungIL rungW2) = opCount .MPP (rungIL rungW2)) :=
  ⟨by decide, C2_rung_outputs rungW2 (by decide)⟩

/-- C3: compiling a LadderProgram produces a fatal error exactly when some
rung has an empty outputs list (with no result produced, the return being an
error value); otherwise the result is the per-rung lowerings concatenated in
program order followed by exactly one END, which is the final instruction. -/
theorem C3_compile_program (p : LadderProgram) :
    ((∃ e, compileProgram p = .error e) ↔ ∃ r ∈ p.rungs, r.outputSection = []) ∧
    ((∀ r ∈ p.rungs, r.outputSection ≠ []) →
      compileProgram p = .ok (p.rungs.flatMap rungIL ++ [endInstr]) ∧
      opCount .END (p.rungs.flatMap rungIL ++ [endInstr]) = 1 ∧
      (p.rungs.flatMap rungIL ++ [endInstr]).getLast? = some endInstr) := by
  constructor
  · constructor
    · rintro ⟨e, he⟩
      by_contra hno
      push_neg at hno
      have hok := compileRungs_ok_of _ hno
      unfold compileProgram at he
      rw [hok] at he
      simp at he
    · intro hex
      obtain ⟨e, he⟩ := compileRungs_error_of _ hex
      refine ⟨e, ?_⟩
      unfold compileProgram
      rw [he]
  · intro hall
    have hok := compileRungs_ok_of _ hall
    refine ⟨by unfold compileProgram; rw [hok], ?_, List.getLast?_concat _⟩
    unfold opCount
    rw [List.countP_append]
    have h1 := flatMapRungIL_end p.rungs
    unfold opCount at h1
    rw [h1]
    rfl

theorem C3_compile_program_witness :
    (∀ r ∈ progW.rungs, r.outputSection ≠ []) ∧
    (compileProgram progW = .ok (progW.rungs.flatMap rungIL ++ [endInstr]) ∧
     opCount .END (progW.rungs.flatMap rungIL ++ [endInstr]) = 1 ∧
     (progW.rungs.flatMap rungIL ++ [endInstr]).getLast? = some endInstr) := by
  have hyp : ∀ r ∈ progW.rungs, r.outputSection ≠ [] := by
    intro r hr
    rw [show progW.rungs = [rungW] from rfl, List.mem_singleton] at hr
    subst hr
    decide
  exact ⟨hyp, (C3_compile_program progW).2 hyp⟩

/-- C4: for every device type and every address within the type's capacity,
parsing the rendered device string returns the original address (X/Y octal,
M/T/C/D decimal). -/
theorem C4_roundtrip (t : DeviceType) (a : Nat) (h : a < DEVICE_LIMITS t) :
    DeviceAddress.fromStr (DeviceAddress.toStr ⟨t, a⟩) = some ⟨t, a⟩ := by
  have hX : ∀ b : Fin 32,
      DeviceAddress.fromStr (DeviceAddress.toStr ⟨.X, b.1⟩) = some ⟨.X, b.1⟩ := by
    decide
  have hY : ∀ b : Fin 32,
      DeviceAddress.fromStr (DeviceAddress.toStr ⟨.Y, b.1⟩) = some ⟨.Y, b.1⟩ := by
    decide
  have hM : ∀ b : Fin 100,
      DeviceAddress.fromStr (DeviceAddress.toStr ⟨.M, b.1⟩) = some ⟨.M, b.1⟩ := by
    decide
  have hT : ∀ b : Fin 100,
      DeviceAddress.fromStr (DeviceAddress.toStr ⟨.T, b.1⟩) = some ⟨.T, b.1⟩ := by
    decide
  have hC : ∀ b : Fin 100,
      DeviceAddress.fromStr (DeviceAddress.toStr ⟨.C, b.1⟩) = some ⟨.C, b.1⟩ := by
    decide
  have hD : ∀ b : Fin 100,
      DeviceAddress.fromStr (DeviceAddress.toStr ⟨.D, b.1⟩) = some ⟨.D, b.1⟩ := by
    decide
  cases t with
  | X => exact hX ⟨a, h⟩
  | Y => exact hY ⟨a, h⟩
  | M => exact hM ⟨a, h⟩
  | T => exact hT ⟨a, h⟩
  | C => exact hC ⟨a, h⟩
  | D => exact hD ⟨a, h⟩

theorem C4_roundtrip_witness :
    8 < DEVICE_LIMITS .X ∧
    DeviceAddress.fromStr (DeviceAddress.toStr ⟨.X, 8⟩) = some ⟨.X, 8⟩ :=
  ⟨by decide, C4_roundtrip .X 8 (by decide)⟩

/-- C5 counterexample: at seconds = 3/4 (exactly representable, and with
seconds·10 = 7.5 exact also in binary floating point) the code computes
kValue `int(7.5) = 7`, while the claimed formula `max(1, round(7.5))` gives
8 (both the round-half-up convention used here and Python's
round-half-to-even agree on 8 at this input). -/
theorem C5_counterexample :
    (TimerConfig.fromSeconds (3/4) "").kValue = 7 ∧
    max 1 (round ((3/4 : Rat) * 10)) = 8 := by
  constructor
  · unfold TimerConfig.fromSeconds pyTrunc
    norm_num
  · norm_num [round_eq]

/-- C5 amended: for every positive seconds value, kValue is
max(1, ⌊seconds·10⌋) — truncation, not rounding — and in particular
sub-tick durations (seconds·10 < 1) give kValue 1 rather than an error. -/
theorem C5_kValue (q : Rat) (c : String) (h : 0 < q) :
    (TimerConfig.fromSeconds q c).kValue = max 1 ⌊q * 10⌋ ∧
    (q * 10 < 1 → (TimerConfig.fromSeconds q c).kValue = 1) := by
  have hq : ¬(q * 10 < 0) := not_lt.mpr (le_of_lt (by positivity))
  constructor
  · unfold TimerConfig.fromSeconds pyTrunc
    simp only [if_neg hq]
    by_cases hk : ⌊q * 10⌋ ≤ 0
    · simp only [if_pos hk]
      omega
    · simp only [if_neg hk]
      omega
  · intro hlt
    have hfl : ⌊q * 10⌋ < 1 := Int.floor_lt.mpr (by exact_mod_cast hlt)
    unfold TimerConfig.fromSeconds pyTrunc
    simp only [if_neg hq]
    simp only [if_pos (by omega : ⌊q * 10⌋ ≤ 0)]

theorem C5_kValue_witness :
    (0 : Rat) < 1/20 ∧
    ((TimerConfig.fromSeconds (1/20) "").kValue = max 1 ⌊(1/20 : Rat) * 10⌋ ∧
     ((1/20 : Rat) * 10 < 1 → (TimerConfig.fromSeconds (1/20) "").kValue = 1)) :=
  ⟨by norm_num, C5_kValue (1/20) "" (by norm_num)⟩

/-- C6 counterexample: after "A" takes X0 via preferred address 0, a fresh
logical name "B" requested with the same preferred address 0 does not raise
a conflict error — the allocator silently assigns the next free address X1. -/
theorem C6_counterexample :
    (match allocate AllocatorSt.init "A" .X "" none (some 0) with
     | .ok (_, s1) =>
       (match allocate s1 "B" .X "" none (some 0) with
        | .ok (a, _) => some a.address
        | .error _ => none)
     | .error _ => none) = some ⟨.X, 1⟩ := rfl

/-- C6 amended: for a fresh logical name with a preferred address, the
allocator never raises a conflict error; when it succeeds it has silently
assigned the first address of the requested type that is at or after the
preferred one and not already taken (every address strictly between the
preferred one and the result is taken). -/
theorem C6_preferred_taken (s : AllocatorSt) (n : String) (t : DeviceType)
    (c : String) (tc : Option TimerConfig) (p : Nat)
    (hfresh : s.allocations.find? (fun al => al.logicalName == n) = none) :
    (∀ m, allocate s n t c tc (some p) ≠ .error (.conflict m)) ∧
    (∀ a s2, allocate s n t c tc (some p) = .ok (a, s2) →
      a.address.deviceType = t ∧ p ≤ a.address.address ∧
      a.address.address ∉ s.allocated t ∧
      ∀ q, p ≤ q → q < a.address.address → q ∈ s.allocated t) := by
  unfold allocate
  simp only [hfresh]
  cases hfree : findFreeFrom (s.allocated t) (DEVICE_LIMITS t) p with
  | error e =>
    obtain ⟨m0, rfl⟩ := findFreeFrom_error_range _ _ _ _ hfree
    exact ⟨fun m hc => by simp at hc, fun a s2 hok => by simp at hok⟩
  | ok addr =>
    obtain ⟨hle, hnot, hcover⟩ := findFreeFrom_ok _ _ _ _ hfree
    constructor
    · intro m hc
      dsimp only at hc
      split_ifs at hc
      all_goals simp at hc
    · intro a s2 hok
      dsimp only at hok
      split_ifs at hok
      all_goals
        obtain ⟨rfl, rfl⟩ := hok
        exact ⟨rfl, hle, hnot, hcover⟩

theorem C6_preferred_taken_witness :
    c6State.allocations.find? (fun al => al.logicalName == "B") = none ∧
    allocate c6State "B" DeviceType.X "" none (some 0) ≠
      .error (.conflict "Address is already allocated") :=
  ⟨rfl, (C6_preferred_taken c6State "B" DeviceType.X "" none 0 rfl).1 _⟩

/-- C7: allocating an already-allocated logical name a second time (with any
arguments) returns the original allocation and leaves the allocator state
unchanged — the cursor does not advance, no address is newly taken, and the
allocation list does not grow. -/
theorem C7_reallocate_stable (s : AllocatorSt) (n : String) (t : DeviceType)
    (c : String) (tc : Option TimerConfig) (pa : Option Nat)
    (a : DeviceAllocation) (s1 : AllocatorSt)
    (h : allocate s n t c tc pa = .ok (a, s1))
    (t2 : DeviceType) (c2 : String) (tc2 : Option TimerConfig)
    (pa2 : Option Nat) :
    allocate s1 n t2 c2 tc2 pa2 = .ok (a, s1) := by
  have hfind : s1.allocations.find? (fun al => al.logicalName == n) = some a := by
    unfold allocate at h
    split at h
    next a0 hf =>
      simp only [Except.ok.injEq, Prod.mk.injEq] at h
      obtain ⟨rfl, rfl⟩ := h
      exact hf
    next hf =>
      split at h
      next e hfree => simp at h
      next addr hfree =>
        split_ifs at h
        simp only [Except.ok.injEq, Prod.mk.injEq] at h
        obtain ⟨rfl, rfl⟩ := h
        simp only [find?_append_of_none _ _ _ hf, List.find?_cons, beq_self_eq_true]
  unfold allocate
  rw [hfind]

theorem C7_reallocate_stable_witness :
    allocate AllocatorSt.init "PB1" DeviceType.X "start" none none =
      .ok (pb1Alloc, c7State) ∧
    allocate c7State "PB1" DeviceType.X "start" none none =
      .ok (pb1Alloc, c7State) :=
  ⟨rfl, C7_reallocate_stable AllocatorSt.init "PB1" DeviceType.X "start" none
    none pb1Alloc c7State rfl DeviceType.X "start" none none⟩

/-- C8: the validator is a total function into diagnostic string lists
(never raising, by construction); an unmatched MPS leaves a non-zero
residual depth and yields the imbalance diagnostic carrying that residual;
an MPP reached at clamped depth 0 is reported at its position (and the depth
clamps back to 0, as the clamped walk `stackResidual` defines); a sequence
whose last instruction is not END (or an empty sequence) yields a non-empty
diagnostics list. -/
theorem C8_validator (l : List Instruction) :
    (stackResidual l 0 ≠ 0 → imbalanceMsg (stackResidual l 0) ∈ validate l) ∧
    (∀ (k : Nat) (hk : k < l.length),
      (l.get ⟨k, hk⟩).instruction = InstructionType.MPP →
      stackResidual (l.take k) 0 = 0 → mppMsg k ∈ validate l) ∧
    (l.getLast?.map (fun i => i.instruction) ≠ some InstructionType.END →
      validate l ≠ []) := by
  refine ⟨?_, ?_, ?_⟩
  · intro h
    have hmem := checkStackAux_imbalance l 0 0 h
    unfold validate checkStackBalance
    exact List.mem_append.mpr (Or.inl (List.mem_append.mpr (Or.inr hmem)))
  · intro k hk hMPP hres
    have hmem := checkStackAux_mpp l 0 0 k hk hMPP hres
    rw [Nat.zero_add] at hmem
    unfold validate checkStackBalance
    exact List.mem_append.mpr (Or.inl (List.mem_append.mpr (Or.inr hmem)))
  · intro h
    cases l with
    | nil => decide
    | cons a as =>
      have hmem : "Program must end with END instruction" ∈ checkEnd (a :: as) := by
        unfold checkEnd
        rw [if_pos h]
        exact List.mem_append.mpr (Or.inl (List.mem_cons_self _ _))
      exact List.ne_nil_of_mem
        (List.mem_append.mpr (Or.inl (List.mem_append.mpr (Or.inl hmem))))

theorem C8_validator_witness :
    imbalanceMsg 1 ∈ validate [⟨.MPS, none, none⟩] ∧
    mppMsg 0 ∈ validate [⟨.MPP, none, none⟩] ∧
    validate [⟨.LD, some "X0", none⟩] ≠ [] :=
  ⟨(C8_validator [⟨.MPS, none, none⟩]).1 (by decide),
   (C8_validator [⟨.MPP, none, none⟩]).2.1 0 (by decide) rfl (by decide),
   (C8_validator [⟨.LD, some "X0", none⟩]).2.2 (by decide)⟩

/-- C9 counterexample: `SequentialPattern.matches` accepts a description
whose only immediate "ON" step is triggered by the second input, which the
claim's condition (immediate "ON" from the first declared input) rejects —
the source never inspects the step's trigger. -/
theorem C9_counterexample :
    sequentialMatches timingSeqDiff = true ∧
    sequentialMatchesSpec timingSeqDiff = false := by decide

/-- C9 amended: `SequentialPattern.matches` returns true exactly when some
step with no delay has an action containing "ON" but not "ALL" (its trigger
is irrelevant), some step carries a positive delay, and at least two inputs
are declared. -/
theorem C9_sequential_matches (t : TimingDescription) :
    sequentialMatches t = true ↔
      ((∃ s ∈ t.sequences, s.delay = none ∧ pyIn "ON" (pyUpper s.action) = true ∧
          pyIn "ALL" (pyUpper s.action) = false) ∧
       (∃ s ∈ t.sequences, ∃ d, s.delay = some d ∧ 0 < d) ∧
       2 ≤ t.inputs.length) := by
  simp [sequentialMatches, List.any_eq_true, seqImmediateOnStep_iff,
    seqDelayedStep_iff, Bool.and_eq_true, and_assoc]

/-- C10: reallocation by logical name ignores the requested device type,
preferred address and timer config — if the name is already in the
allocation list, the original allocation of the original type is returned
and the allocator state (including the state of the newly requested type)
is untouched. -/
theorem C10_reuse_ignores_type (s : AllocatorSt) (n : String)
    (a : DeviceAllocation)
    (h : s.allocations.find? (fun al => al.logicalName == n) = some a)
    (t : DeviceType) (c : String) (tc : Option TimerConfig) (pa : Option Nat) :
    allocate s n t c tc pa = .ok (a, s) := by
  unfold allocate
  rw [h]

theorem C10_reuse_ignores_type_witness :
    c7State.allocations.find? (fun al => al.logicalName == "PB1") =
      some pb1Alloc ∧
    allocate c7State "PB1" DeviceType.Y "other" none (some 5) =
      .ok (pb1Alloc, c7State) :=
  ⟨rfl, C10_reuse_ignores_type c7State "PB1" pb1Alloc rfl DeviceType.Y "other"
    none (some 5)⟩

end Melsec
